import Mathlib

/-!
Verification of the deterministic replay-verification core of a typing game:
the seeded word scheduler (Mulberry32 PRNG + difficulty-banded selection),
the kana tokenizer and pattern matcher, and the server-side replay verifier's
score / speed / persistence checks.  Definitions are shallow embeddings of the
TypeScript source in `src/lib/word-utils.ts` and
`src/routes/play/+page.server.ts`; JavaScript 32-bit integer operations are
modelled on `Nat` with explicit `% 2^32`, and JavaScript numbers that stay
integral are modelled exactly (JS doubles are exact below 2^53).
-/

namespace TypingGame

/-- A word of the pool: display form and phonetic (kana) spelling.
Source: `type Word = { disp: string; kana: string }` in `word-utils.ts`. -/
structure Word where
  disp : String
  kana : String
deriving DecidableEq, Repr

/-- Two to the 32nd power: the modulus of all JavaScript 32-bit coercions (`>>>`, `^`, `|`, `Math.imul`). -/
def M32 : Nat := 4294967296

/-- One step of the Mulberry32 PRNG, embedding `createPRNG` from `word-utils.ts`:
the closure variable `seed` grows by `0x6d2b79f5` each call (exact in JS doubles
for any realistic call count), and the mixing rounds operate on its low 32 bits;
`Math.imul` is multiplication mod 2^32, `t ^= t + imul(...)` is two's-complement
addition mod 2^32 followed by xor, and the final `>>> 0` divides by 2^32 to give
a rational in `[0, 1)`.  Returns the new closure state and the output. -/
def mulberryStep (seed : Nat) : Nat × ℚ :=
  let s := seed + 0x6d2b79f5
  let t0 := s % M32
  let t1 := ((t0 ^^^ (t0 >>> 15)) * (t0 ||| 1)) % M32
  let t2 := t1 ^^^ ((t1 + (((t1 ^^^ (t1 >>> 7)) * (t1 ||| 61)) % M32)) % M32)
  let r := (t2 ^^^ (t2 >>> 14)) % M32
  (s, (r : ℚ) / (M32 : ℚ))

/-- The stream of the first `n` PRNG outputs from a given seed. -/
def prngStream (seed : Nat) : Nat → List ℚ
  | 0 => []
  | n + 1 =>
    let (s, r) := mulberryStep seed
    r :: prngStream s n

/-- Difficulty-band bounds chosen from the elapsed time, embedding the
`DIFFICULTY_THRESHOLDS = [20, 40, 60]` / `WORD_LENGTHS` if-chain of
`getNextWordSeeded`. -/
def bandBounds (elapsedTime : ℚ) : Nat × Nat :=
  if elapsedTime < 20 then (1, 3)
  else if elapsedTime < 40 then (3, 5)
  else if elapsedTime < 60 then (4, 6)
  else (5, 20)

/-- The candidate filter of `getNextWordSeeded`:
`w.kana.length >= min && w.kana.length <= max` on the raw kana string length. -/
def inBand (elapsedTime : ℚ) (w : Word) : Bool :=
  let (mn, mx) := bandBounds elapsedTime
  mn ≤ w.kana.length && w.kana.length ≤ mx

/-- The sentinel word returned when the active list is empty. -/
def noDataWord : Word := ⟨"NO DATA", "nodata"⟩

/-- Difficulty-based word selection, embedding `getNextWordSeeded` from
`word-utils.ts`.  The PRNG closure is made explicit: the function takes the
current Mulberry32 state and returns it (advanced only if `prng()` was called).
`candidates[Math.floor(prng() * candidates.length)]` is modelled with `Int.floor`
on exact rationals. -/
def getNextWordSeeded (activeList : List Word) (elapsedTime : ℚ) (seed : Nat) :
    Word × Nat :=
  let candidates0 := activeList.filter (inBand elapsedTime)
  let candidates := if candidates0.isEmpty then activeList else candidates0
  if candidates.isEmpty then (noDataWord, seed)
  else
    let step := mulberryStep seed
    (candidates.getD (⌊step.2 * (candidates.length : ℚ)⌋).toNat noDataWord, step.1)

/-- Replaying a whole schedule: fold `getNextWordSeeded` over an elapsed-time
sequence, threading the PRNG state, collecting the selected words. -/
def selectWords (seed : Nat) (pool : List Word) (times : List ℚ) :
    List Word × Nat :=
  times.foldl
    (fun acc t =>
      let (w, s) := getNextWordSeeded pool t acc.2
      (acc.1 ++ [w], s))
    ([], seed)

/-- The static kana → accepted-romanization table, embedding `KanaEngine.table`
from `word-utils.ts` verbatim, in source order (JS object property order; keys
are unique, so association-list lookup matches JS property lookup). -/
def kanaTable : List (String × List String) :=
  [("あ", ["a"]), ("い", ["i", "yi"]), ("う", ["u", "wu", "whu"]),
   ("え", ["e"]), ("お", ["o"]),
   ("か", ["ka", "ca"]), ("き", ["ki"]), ("く", ["ku", "cu", "qu"]),
   ("け", ["ke"]), ("こ", ["ko", "co"]),
   ("さ", ["sa"]), ("し", ["shi", "si", "ci"]), ("す", ["su"]),
   ("せ", ["se", "ce"]), ("そ", ["so"]),
   ("た", ["ta"]), ("ち", ["chi", "ti"]), ("つ", ["tsu", "tu"]),
   ("て", ["te"]), ("と", ["to"]),
   ("な", ["na"]), ("に", ["ni"]), ("ぬ", ["nu"]), ("ね", ["ne"]), ("の", ["no"]),
   ("は", ["ha"]), ("ひ", ["hi"]), ("ふ", ["fu", "hu"]), ("へ", ["he"]), ("ほ", ["ho"]),
   ("ま", ["ma"]), ("み", ["mi"]), ("む", ["mu"]), ("め", ["me"]), ("も", ["mo"]),
   ("や", ["ya"]), ("ゆ", ["yu"]), ("よ", ["yo"]),
   ("ら", ["ra"]), ("り", ["ri"]), ("る", ["ru"]), ("れ", ["re"]), ("ろ", ["ro"]),
   ("わ", ["wa"]), ("を", ["wo"]), ("ん", ["nn", "xn", "n"]),
   ("が", ["ga"]), ("ぎ", ["gi"]), ("ぐ", ["gu"]), ("げ", ["ge"]), ("ご", ["go"]),
   ("ざ", ["za"]), ("じ", ["ji", "zi"]), ("ず", ["zu"]), ("ぜ", ["ze"]), ("ぞ", ["zo"]),
   ("だ", ["da"]), ("ぢ", ["ji", "di"]), ("づ", ["zu", "du"]), ("で", ["de"]), ("ど", ["do"]),
   ("ば", ["ba"]), ("び", ["bi"]), ("ぶ", ["bu"]), ("べ", ["be"]), ("ぼ", ["bo"]),
   ("ぱ", ["pa"]), ("ぴ", ["pi"]), ("ぷ", ["pu"]), ("ぺ", ["pe"]), ("ぽ", ["po"]),
   ("ぁ", ["xa", "la"]), ("ぃ", ["xi", "li"]), ("ぅ", ["xu", "lu"]),
   ("ぇ", ["xe", "le"]), ("ぉ", ["xo", "lo"]),
   ("っ", ["xtu", "ltu", "tsu"]),
   ("ゃ", ["xya", "lya"]), ("ゅ", ["xyu", "lyu"]), ("ょ", ["xyo", "lyo"]),
   ("ゎ", ["xwa", "lwa"]),
   ("きゃ", ["kya", "kixya"]), ("きゅ", ["kyu", "kixyu"]), ("きょ", ["kyo", "kixyo"]),
   ("しゃ", ["sha", "sya"]), ("しゅ", ["shu", "syu"]), ("しょ", ["sho", "syo"]),
   ("ちゃ", ["cha", "tya"]), ("ちゅ", ["chu", "tyu"]), ("ちょ", ["cho", "tyo"]),
   ("にゃ", ["nya"]), ("にゅ", ["nyu"]), ("にょ", ["nyo"]),
   ("ひゃ", ["hya"]), ("ひゅ", ["hyu"]), ("ひょ", ["hyo"]),
   ("みゃ", ["mya"]), ("みゅ", ["myu"]), ("みょ", ["myo"]),
   ("りゃ", ["rya"]), ("りゅ", ["ryu"]), ("りょ", ["ryo"]),
   ("ぎゃ", ["gya"]), ("ぎゅ", ["gyu"]), ("ぎょ", ["gyo"]),
   ("じゃ", ["ja", "jya", "zya"]), ("じゅ", ["ju", "jyu", "zyu"]), ("じょ", ["jo", "jyo", "zyo"]),
   ("びゃ", ["bya"]), ("びゅ", ["byu"]), ("びょ", ["byo"]),
   ("ぴゃ", ["pya"]), ("ぴゅ", ["pyu"]), ("ぴょ", ["pyo"]),
   ("いェ", ["ye"]),
   ("うぁ", ["wha"]), ("うぃ", ["wi", "whi"]), ("うぇ", ["we", "whe"]), ("うぉ", ["who"]),
   ("ヴ", ["vu"]), ("ゔ", ["vu"]),
   ("ゔぁ", ["va"]), ("ゔぃ", ["vi"]), ("ゔぇ", ["ve"]), ("ゔぉ", ["vo"]),
   ("くぁ", ["qa", "qwa", "kwa"]), ("ぐぁ", ["gwa"]),
   ("しェ", ["she", "sye"]), ("じェ", ["je", "jye"]), ("ちェ", ["che", "tye"]),
   ("つぁ", ["tsa"]), ("つぃ", ["tsi"]), ("つぇ", ["tse"]), ("つぉ", ["tso"]),
   ("てぃ", ["thi"]), ("てゅ", ["thu"]), ("でぃ", ["dhi"]), ("でゅ", ["dhu"]),
   ("とぅ", ["twu", "toxu"]), ("どぅ", ["dwu", "doxu"]),
   ("ふぁ", ["fa"]), ("ふぃ", ["fi"]), ("ふぇ", ["fe"]), ("ふぉ", ["fo"]),
   ("ふゅ", ["fyu"])]

/-- Embeds the JS object property access `KanaEngine.table[token]`, returning
`none` where JS yields `undefined` (absent key). -/
def lookupKana (token : String) : Option (List String) :=
  kanaTable.lookup token

/-- The fixed small-character set of `KanaEngine.tokenize`:
`["ゃ", "ゅ", "ょ", "ぁ", "ぃ", "ぅ", "ぇ", "ぉ", "ゎ"]` (note: the geminate
marker っ is NOT in this list). -/
def smallChars : List Char :=
  ['ゃ', 'ゅ', 'ょ', 'ぁ', 'ぃ', 'ぅ', 'ぇ', 'ぉ', 'ゎ']

/-- The index loop of `KanaEngine.tokenize` as structural recursion over the
character sequence: fusing a character with a following small character
consumes two characters (`i++` inside the loop), otherwise one. -/
def tokenizeChars : List Char → List String
  | [] => []
  | [c] => [String.mk [c]]
  | c :: d :: rest =>
    if d ∈ smallChars then String.mk [c, d] :: tokenizeChars rest
    else String.mk [c] :: tokenizeChars (d :: rest)

/-- The tokenizer `KanaEngine.tokenize` on a string. -/
def tokenize (kanaWord : String) : List String :=
  tokenizeChars kanaWord.data

/-- Concatenation of tokens (the round-trip direction). -/
def tokenJoin (tokens : List String) : String :=
  tokens.foldr (fun a b => a ++ b) ""

/-- Insertion-ordered deduplication, modelling JavaScript `Set` iteration order
(first occurrence wins, order preserved). -/
def insertionDedup : List String → List String
  | [] => []
  | x :: xs => x :: (insertionDedup xs).filter (fun y => y ≠ x)

/-- JavaScript `p.startsWith(pre)` modelled on the character sequences. -/
def strStartsWith (p pre : String) : Bool :=
  pre.data.isPrefixOf p.data

/-- Embeds `KanaEngine.getValidPatterns(token, nextToken?)` from `word-utils.ts`:
start from the direct table entry; for a two-character token not led by っ,
append the pairwise cross-product of the two characters' own pattern lists;
for the geminate marker っ with a known next token, prepend the set of first
letters of the next token's patterns (JS `Set` insertion order). -/
def getValidPatterns (token : String) (nextToken : Option String) : List String :=
  let base := (lookupKana token).getD []
  let withCross :=
    if token.length = 2 ∧ token.data.headD ' ' ≠ 'っ' then
      let p1List := (lookupKana (String.mk [token.data.headD ' '])).getD []
      let p2List := (lookupKana (String.mk [(token.data.drop 1).headD ' '])).getD []
      base ++ (p1List.map (fun p1 => p2List.map (fun p2 => p1 ++ p2))).flatten
    else base
  if token = "っ" then
    match nextToken with
    | some nt =>
      let nextBasicPatterns := (lookupKana nt).getD []
      if nextBasicPatterns.isEmpty then withCross
      else
        let consonants :=
          insertionDedup (nextBasicPatterns.filterMap
            (fun p => p.data.head?.map (fun c => String.mk [c])))
        consonants ++ withCross
    | none => withCross
  else withCross

/-- Band membership measured as the specification describes it — in phonetic
units as produced by the tokenizer, so a base+small-character digraph such as
きょ counts as one unit.  Stated only for comparison with the source's
`inBand`, which measures the raw kana string length. -/
def inBandSpecPhonetic (elapsedTime : ℚ) (w : Word) : Bool :=
  let (mn, mx) := bandBounds elapsedTime
  mn ≤ (tokenize w.kana).length && (tokenize w.kana).length ≤ mx

/-- State of the verifier's per-word keystroke re-simulation loop
(`submitScore` in `play/+page.server.ts`). -/
structure SimState where
  tokenIndex : Nat
  inputBuffer : String
  correctKeys : Nat
  currentCombo : Nat
  hasErrorInWord : Bool
deriving DecidableEq, Repr

/-- Embeds `key.length === 1 && /[぀-ゟ]/.test(key)` — a single
hiragana character entered by flick input. -/
def isFlickInput (key : String) : Bool :=
  key.length = 1 && key.data.any (fun c => 0x3040 ≤ c.toNat && c.toNat ≤ 0x309F)

/-- JS `/^[aiueoyn]/.test(x)` where `x` is `KanaEngine.table[nextToken]?.[0]`:
when the lookup is `undefined` (missing key or empty list), JS coerces it to
the string `"undefined"`, which begins with `u` and therefore matches. -/
def headVowelYNTest (x : Option String) : Bool :=
  match x with
  | none => true
  | some p =>
    match p.data.head? with
    | some c => c ∈ ['a', 'i', 'u', 'e', 'o', 'y', 'n']
    | none => false

/-- The first pattern of a token's table entry, `KanaEngine.table[nt]?.[0]`. -/
def headPattern (nt : String) : Option String :=
  (lookupKana nt).bind List.head?

/-- One iteration of the verifier's keystroke loop (`play/+page.server.ts`,
the body of `while (tokenIndex < tokens.length && keyIdx < keyLog.length)`):
flick input compares the key to the current token directly; romaji input
extends the buffer when some valid pattern starts with it, completes the token
when the buffer equals a pattern unless the ambiguous-ん case holds, and
otherwise resets the combo and flags the word as having an error. -/
def processKey (tokens : List String) (st : SimState) (key : String) : SimState :=
  let currToken := tokens.getD st.tokenIndex ""
  if isFlickInput key then
    if key = currToken then
      { st with
        correctKeys := st.correctKeys + 1
        currentCombo := st.currentCombo + 1
        tokenIndex := st.tokenIndex + 1
        inputBuffer := "" }
    else { st with currentCombo := 0, hasErrorInWord := true }
  else
    let nextToken := tokens[st.tokenIndex + 1]?
    let patterns := getValidPatterns currToken nextToken
    let nextBuffer := st.inputBuffer ++ key
    if patterns.any (fun p => strStartsWith p nextBuffer) then
      let isMatch := patterns.contains nextBuffer
      let isN_Ambiguity :=
        currToken = "ん" && nextBuffer = "n" &&
          (match nextToken with
           | some nt => nt ≠ "" && headVowelYNTest (headPattern nt)
           | none => false)
      if isMatch && !isN_Ambiguity then
        { st with
          correctKeys := st.correctKeys + 1
          currentCombo := st.currentCombo + 1
          tokenIndex := st.tokenIndex + 1
          inputBuffer := "" }
      else
        { st with
          correctKeys := st.correctKeys + 1
          currentCombo := st.currentCombo + 1
          inputBuffer := nextBuffer }
    else { st with currentCombo := 0, hasErrorInWord := true }

/-- The verifier's score comparison (`play/+page.server.ts`):
`Math.abs(serverScore - score) > 0` triggers the score-mismatch rejection.
The claimed score is any JSON number (modelled as a rational); the recomputed
server score is an integer. -/
def scoreMismatchReject (serverScore : ℤ) (claimedScore : ℚ) : Bool :=
  |(serverScore : ℚ) - claimedScore| > 0

/-- The verifier's speed check (`play/+page.server.ts`):
`kpm = durationMin > 0.05 ? correctKeys / durationMin : 0`, rejected when
`kpm > 1200`. -/
def computeKpm (correctKeys : Nat) (totalGameTimeSeconds : ℚ) : ℚ :=
  let durationMin := totalGameTimeSeconds / 60
  if durationMin > 1/20 then (correctKeys : ℚ) / durationMin else 0

/-- The speed-check rejection flag: `kpm > 1200`. -/
def speedReject (correctKeys : Nat) (totalGameTimeSeconds : ℚ) : Bool :=
  computeKpm correctKeys totalGameTimeSeconds > 1200

/-- A row of the `scores` table. -/
structure ScoreRow where
  username : String
  score : ℤ
  kpm : ℤ
deriving DecidableEq, Repr

/-- The response of a fully verified submission. -/
structure SubmitResult where
  success : Bool
  verifiedScore : ℤ
  kpm : ℤ
  isNewRecord : Bool
deriving DecidableEq, Repr

/-- Insert-or-replace of a user's row, modelling the SQL upsert
(`INSERT ... ON CONFLICT(user_id) DO UPDATE`). -/
def upsertRow (uid : String) (row : ScoreRow) (db : List (String × ScoreRow)) :
    List (String × ScoreRow) :=
  db.filter (fun p => p.1 ≠ uid) ++ [(uid, row)]

/-- The accepted-submission tail of `submitScore` (`play/+page.server.ts`,
after all checks pass): the best-score row is read and conditionally upserted
only when `userId` is present, truthy, and starts with `"usr_"`; otherwise the
table is untouched and `isNewRecord` stays false.  `username?.trim() || "guest"`
falls back to `"guest"` for a missing or whitespace-only username.  Returns the
updated table and the response. -/
def finalizeScore (userId : Option String) (username : Option String)
    (serverScore : ℤ) (kpmRounded : ℤ) (db : List (String × ScoreRow)) :
    List (String × ScoreRow) × SubmitResult :=
  let gate :=
    match userId with
    | some uid => uid ≠ "" && strStartsWith uid "usr_"
    | none => false
  if gate then
    let uid := userId.getD ""
    let finalName :=
      match username with
      | some u => if u.trim = "" then "guest" else u.trim
      | none => "guest"
    match (db.lookup uid).map ScoreRow.score with
    | some best =>
      if serverScore > best then
        (upsertRow uid ⟨finalName, serverScore, kpmRounded⟩ db,
         ⟨true, serverScore, kpmRounded, true⟩)
      else (db, ⟨true, serverScore, kpmRounded, false⟩)
    | none =>
      (upsertRow uid ⟨finalName, serverScore, kpmRounded⟩ db,
       ⟨true, serverScore, kpmRounded, true⟩)
  else (db, ⟨true, serverScore, kpmRounded, false⟩)

-- helper: startsWith is reflexive
theorem strStartsWith_self (s : String) : strStartsWith s s = true := by
  simp [strStartsWith, List.isPrefixOf_iff_prefix]

-- C2
/-- C2: the score comparison rejects exactly when the recomputed server score
differs from the claimed score — exact equality, no tolerance. -/
theorem scoreMismatchReject_iff (serverScore : ℤ) (claimedScore : ℚ) :
    scoreMismatchReject serverScore claimedScore = true ↔
      (serverScore : ℚ) ≠ claimedScore := by
  simp [scoreMismatchReject, abs_pos, sub_ne_zero]

-- C7
/-- C7: for the geminate marker っ with next token た, `getValidPatterns`
prepends the single first letter "t" of た's patterns ahead of っ's direct
entries "xtu", "ltu", "tsu". -/
theorem getValidPatterns_geminate_ta :
    getValidPatterns "っ" (some "た") = ["t", "xtu", "ltu", "tsu"] ∧
    "t" ∈ getValidPatterns "っ" (some "た") ∧
    (getValidPatterns "っ" (some "た")).indexOf "t" <
      (getValidPatterns "っ" (some "た")).indexOf "xtu" ∧
    (getValidPatterns "っ" (some "た")).indexOf "t" <
      (getValidPatterns "っ" (some "た")).indexOf "ltu" ∧
    (getValidPatterns "っ" (some "た")).indexOf "t" <
      (getValidPatterns "っ" (some "た")).indexOf "tsu" := by
  refine ⟨by decide, ?_, ?_, ?_, ?_⟩ <;> decide

-- C1
/-- C1: the seeded scheduler is deterministic — the PRNG output stream and the
selected-word sequence are functions of the seed, the pool, and the
elapsed-time sequence alone; equal inputs give bit-identical outputs. -/
theorem replay_deterministic (s1 s2 : Nat) (pool1 pool2 : List Word)
    (ts1 ts2 : List ℚ) (n : Nat)
    (hs : s1 = s2) (hp : pool1 = pool2) (ht : ts1 = ts2) :
    prngStream s1 n = prngStream s2 n ∧
      selectWords s1 pool1 ts1 = selectWords s2 pool2 ts2 := by
  subst hs; subst hp; subst ht; exact ⟨rfl, rfl⟩

/-- Witness for C1 at seed 12345, a one-word pool, and one elapsed time. -/
theorem replay_deterministic_witness :
    prngStream 12345 3 = prngStream 12345 3 ∧
      selectWords 12345 [⟨"猫", "ねこ"⟩] [5] =
        selectWords 12345 [⟨"猫", "ねこ"⟩] [5] :=
  replay_deterministic 12345 12345 [⟨"猫", "ねこ"⟩] [⟨"猫", "ねこ"⟩] [5] [5] 3
    rfl rfl rfl

-- C5 counterexample
/-- C5 counterexample: with a reported duration of 2 seconds and 100 recomputed
correct keys the ratio is 3000 keys per minute, far above the 1200 ceiling, yet
the speed check does not reject, because `durationMin > 0.05` fails and `kpm`
is set to 0. -/
theorem speedReject_short_duration_bypass :
    (100 : ℚ) / ((2 : ℚ) / 60) > 1200 ∧ speedReject 100 2 = false := by
  constructor
  · norm_num
  · simp only [speedReject, computeKpm]
    norm_num

-- C5 amended
/-- C5 amended: the speed check rejects exactly when the reported duration
exceeds 3 seconds (`durationMin > 0.05`) and the correct-keys-per-minute ratio
exceeds 1200; submissions whose reported duration is at most 3 seconds get
`kpm = 0` and always pass the speed check. -/
theorem speedReject_iff (correctKeys : Nat) (totalGameTimeSeconds : ℚ) :
    speedReject correctKeys totalGameTimeSeconds = true ↔
      (totalGameTimeSeconds / 60 > 1/20 ∧
        (correctKeys : ℚ) / (totalGameTimeSeconds / 60) > 1200) := by
  unfold speedReject computeKpm
  simp only [decide_eq_true_eq]
  split_ifs with h
  · simp [h]
    intro _
    linarith
  · simp [h]
    norm_num
    intro hc
    exact absurd hc h

theorem tokenizeChars_token_shape (cs : List Char) :
    ∀ t ∈ tokenizeChars cs,
      t.length = 1 ∨ (t.length = 2 ∧ t.data.getD 1 ' ' ∈ smallChars) := by
  induction cs using tokenizeChars.induct with
  | case1 => intro t ht; simp [tokenizeChars] at ht
  | case2 c =>
    intro t ht
    simp [tokenizeChars] at ht
    subst ht
    exact Or.inl rfl
  | case3 c d rest h ih =>
    intro t ht
    rw [tokenizeChars, if_pos h] at ht
    rcases List.mem_cons.mp ht with h1 | h2
    · subst h1
      exact Or.inr ⟨rfl, h⟩
    · exact ih t h2
  | case4 c d rest h ih =>
    intro t ht
    rw [tokenizeChars, if_neg h] at ht
    rcases List.mem_cons.mp ht with h1 | h2
    · subst h1
      exact Or.inl rfl
    · exact ih t h2

/-- C3 counterexample: in the source the geminate marker っ is not in the
tokenizer's small-character fusion set, so "かっ" tokenizes as two singleton
tokens, not as the fused two-character token the claim predicts. -/
theorem tokenize_small_tsu_not_fused :
    tokenize "かっ" = ["か", "っ"] ∧ tokenize "かっ" ≠ ["かっ"] :=
  ⟨by decide, by decide⟩

/-- C3 amended: the tokenizer fuses the current character with the next exactly
when the next is in the fixed set of small vowels, palatal glides and small ゎ
(ゃゅょぁぃぅぇぉゎ); the geminate marker っ is not in that set, so every
fused two-character token ends in one of those nine characters and a っ
following a base character becomes its own singleton token. -/
theorem tokenize_fusion_rule (cs : List Char) (c d : Char) (rest : List Char) :
    (∀ t ∈ tokenizeChars cs,
      t.length = 1 ∨ (t.length = 2 ∧ t.data.getD 1 ' ' ∈ smallChars)) ∧
    (d ∈ smallChars →
      tokenizeChars (c :: d :: rest) = String.mk [c, d] :: tokenizeChars rest) ∧
    (d ∉ smallChars →
      tokenizeChars (c :: d :: rest) = String.mk [c] :: tokenizeChars (d :: rest)) ∧
    'っ' ∉ smallChars := by
  refine ⟨tokenizeChars_token_shape cs, fun h => ?_, fun h => ?_, by decide⟩
  · rw [tokenizeChars, if_pos h]
  · rw [tokenizeChars, if_neg h]

/-- Witness for C3's amended fusion rule on concrete inputs: きょ is a fused
token of きょう, while か and っ stay singletons in かった. -/
theorem tokenize_fusion_rule_witness :
    ("きょ".length = 1 ∨ ("きょ".length = 2 ∧ "きょ".data.getD 1 ' ' ∈ smallChars)) ∧
    tokenizeChars ['き', 'ょ', 'う'] = String.mk ['き', 'ょ'] :: tokenizeChars ['う'] ∧
    tokenizeChars ['か', 'っ', 'た'] = String.mk ['か'] :: tokenizeChars ['っ', 'た'] :=
  ⟨(tokenize_fusion_rule ['き', 'ょ'] 'き' 'ょ' []).1 "きょ" (by decide),
   (tokenize_fusion_rule [] 'き' 'ょ' ['う']).2.1 (by decide),
   (tokenize_fusion_rule [] 'か' 'っ' ['た']).2.2.1 (by decide)⟩

theorem tokenJoin_tokenizeChars (cs : List Char) :
    (tokenJoin (tokenizeChars cs)).data = cs := by
  induction cs using tokenizeChars.induct with
  | case1 => rfl
  | case2 c => rfl
  | case3 c d rest h ih =>
    rw [tokenizeChars, if_pos h]
    show (String.mk [c, d] ++ tokenJoin (tokenizeChars rest)).data = c :: d :: rest
    rw [String.data_append, ih]
    rfl
  | case4 c d rest h ih =>
    rw [tokenizeChars, if_neg h]
    show (String.mk [c] ++ tokenJoin (tokenizeChars (d :: rest))).data = c :: d :: rest
    rw [String.data_append, ih]
    rfl

/-- C8: tokenization is total and deterministic (it is a Lean function), and
concatenating the tokens of any word reconstructs the word exactly. -/
theorem tokenize_roundTrip (w : String) : tokenJoin (tokenize w) = w :=
  String.ext (tokenJoin_tokenizeChars w.data)

theorem mulberryStep_snd_eq (s : Nat) :
    ∃ n : Nat, n < M32 ∧ (mulberryStep s).2 = (n : ℚ) / (M32 : ℚ) :=
  ⟨_, Nat.mod_lt _ (by norm_num [M32]), rfl⟩

theorem mulberryStep_snd_bounds (s : Nat) :
    0 ≤ (mulberryStep s).2 ∧ (mulberryStep s).2 < 1 := by
  obtain ⟨n, hn, he⟩ := mulberryStep_snd_eq s
  rw [he]
  constructor
  · positivity
  · rw [div_lt_one (by norm_num [M32])]
    exact_mod_cast hn

theorem getD_mem_of_lt {α : Type} (l : List α) (i : Nat) (d : α)
    (h : i < l.length) : l.getD i d ∈ l := by
  rw [List.getD_eq_getElem?_getD, List.getElem?_eq_getElem h]
  exact List.getElem_mem h

theorem floor_index_lt (r : ℚ) (h0 : 0 ≤ r) (h1 : r < 1) (n : Nat) (hn : 0 < n) :
    (⌊r * (n : ℚ)⌋).toNat < n := by
  have hrn : r * (n : ℚ) < (n : ℚ) := by
    calc r * (n : ℚ) < 1 * (n : ℚ) :=
          mul_lt_mul_of_pos_right h1 (by exact_mod_cast hn)
    _ = (n : ℚ) := one_mul _
  have hf : ⌊r * (n : ℚ)⌋ < (n : ℤ) := by
    rw [Int.floor_lt]
    exact_mod_cast hrn
  have hnn : 0 ≤ ⌊r * (n : ℚ)⌋ := Int.floor_nonneg.mpr (by positivity)
  exact (Int.toNat_lt hnn).mpr hf

theorem getNextWordSeeded_mem (l : List Word) (e : ℚ) (s : Nat) (h : l ≠ []) :
    (getNextWordSeeded l e s).1 ∈
      (if (l.filter (inBand e)).isEmpty then l else l.filter (inBand e)) := by
  set candidates := if (l.filter (inBand e)).isEmpty then l else l.filter (inBand e)
    with hc
  have hne : candidates ≠ [] := by
    rw [hc]
    split
    · exact h
    · next hx => exact fun hnil => hx (by simp [hnil])
  have hdef : getNextWordSeeded l e s =
      (if candidates.isEmpty then (noDataWord, s)
       else (candidates.getD
              (⌊(mulberryStep s).2 * (candidates.length : ℚ)⌋).toNat noDataWord,
             (mulberryStep s).1)) := by
    rw [hc]
    rfl
  have hlen : 0 < candidates.length := List.length_pos.mpr hne
  have hEne : ¬(candidates.isEmpty = true) := by
    simpa [List.isEmpty_iff] using hne
  rw [hdef, if_neg hEne]
  obtain ⟨hb0, hb1⟩ := mulberryStep_snd_bounds s
  exact getD_mem_of_lt _ _ _ (floor_index_lt _ hb0 hb1 _ hlen)

/-- C9: the scheduler never fails — an empty active list yields the sentinel
word with the PRNG state unchanged (no PRNG value consumed); otherwise the
selected word is a member of the band-filtered candidates when any exist, of
the full active list when the band is empty (graceful fallback), and in all
cases a defined element of the list indexed by the floored PRNG value. -/
theorem getNextWordSeeded_total (l : List Word) (e : ℚ) (s : Nat) :
    (l = [] → getNextWordSeeded l e s = (noDataWord, s)) ∧
    (l ≠ [] →
      (getNextWordSeeded l e s).1 ∈
        (if (l.filter (inBand e)).isEmpty then l else l.filter (inBand e)) ∧
      (getNextWordSeeded l e s).1 ∈ l) := by
  constructor
  · intro h
    subst h
    rfl
  · intro h
    have hm := getNextWordSeeded_mem l e s h
    refine ⟨hm, ?_⟩
    revert hm
    split
    · exact id
    · exact fun hm => List.mem_of_mem_filter hm

/-- Witness for C9: the empty pool yields the sentinel at seed 7; a singleton
pool at elapsed time 5 yields a member of the (band-filtered) pool. -/
theorem getNextWordSeeded_total_witness :
    getNextWordSeeded [] 0 7 = (noDataWord, 7) ∧
    ((getNextWordSeeded [⟨"猫", "ねこ"⟩] 5 12345).1 ∈
        (if (([⟨"猫", "ねこ"⟩] : List Word).filter (inBand 5)).isEmpty
         then ([⟨"猫", "ねこ"⟩] : List Word)
         else ([⟨"猫", "ねこ"⟩] : List Word).filter (inBand 5)) ∧
      (getNextWordSeeded [⟨"猫", "ねこ"⟩] 5 12345).1 ∈
        [(⟨"猫", "ねこ"⟩ : Word)]) :=
  ⟨(getNextWordSeeded_total [] 0 7).1 rfl,
   (getNextWordSeeded_total [⟨"猫", "ねこ"⟩] 5 12345).2 (List.cons_ne_nil _ _)⟩

/-- C6 counterexample: the word きょうと has phonetic length 3 in tokenizer
units (きょ is one unit), inside the elapsed-time-0 band 1–3, yet the source's
band filter excludes it, because the filter measures the raw kana string
length 4 — band membership is not decided by the tokenizer's measurement. -/
theorem inBand_not_phonetic_units :
    inBand 0 ⟨"京都", "きょうと"⟩ = false ∧
    inBandSpecPhonetic 0 ⟨"京都", "きょうと"⟩ = true ∧
    (tokenize "きょうと").length = 3 ∧ "きょうと".length = 4 :=
  ⟨by decide, by decide, by decide, by decide⟩

/-- C6 amended: the difficulty band is chosen by the elapsed-time thresholds
20s, 40s, 60s with length ranges 1–3, 3–5, 4–6, 5–20, but a word's membership
is measured on its raw kana string length (きょ counts as two units, unlike
the tokenizer's measurement): whenever some pool word lies in the band of the
elapsed time, the selected word lies in that band. -/
theorem getNextWordSeeded_band (l : List Word) (e : ℚ) (s : Nat)
    (h : l.filter (fun w =>
      decide ((if e < 20 then (1 : Nat) else if e < 40 then 3
                else if e < 60 then 4 else 5) ≤ w.kana.length) &&
      decide (w.kana.length ≤ (if e < 20 then (3 : Nat) else if e < 40 then 5
                else if e < 60 then 6 else 20))) ≠ []) :
    inBand e (getNextWordSeeded l e s).1 = true := by
  have hpred : (fun w : Word =>
      decide ((if e < 20 then (1 : Nat) else if e < 40 then 3
                else if e < 60 then 4 else 5) ≤ w.kana.length) &&
      decide (w.kana.length ≤ (if e < 20 then (3 : Nat) else if e < 40 then 5
                else if e < 60 then 6 else 20))) = inBand e := by
    funext w
    unfold inBand bandBounds
    split_ifs <;> rfl
  rw [hpred] at h
  have hl : l ≠ [] := by
    intro hnil
    subst hnil
    exact h rfl
  have hm := getNextWordSeeded_mem l e s hl
  rw [if_neg (by simpa [List.isEmpty_iff] using h)] at hm
  exact List.of_mem_filter hm

/-- Witness for C6's amended selection property: a singleton pool whose word
あ (kana length 1) lies in the elapsed-time-0 band 1–3. -/
theorem getNextWordSeeded_band_witness :
    inBand 0 (getNextWordSeeded [⟨"a", "あ"⟩] 0 3).1 = true :=
  getNextWordSeeded_band [⟨"a", "あ"⟩] 0 3 (by decide)

theorem contains_imp_any_startsWith (pats : List String) (nb : String)
    (hc : pats.contains nb = true) :
    pats.any (fun p => strStartsWith p nb) = true := by
  have hm : nb ∈ pats := List.elem_iff.mp hc
  exact List.any_eq_true.mpr ⟨nb, hm, strStartsWith_self nb⟩

theorem headVowelYNTest_of_cons (nt p : String) (ps : List String)
    (hlk : lookupKana nt = some (p :: ps)) (c : Char) (cs : List Char)
    (hcc : p.data = c :: cs) :
    headVowelYNTest (headPattern nt) =
      decide (c ∈ ['a', 'i', 'u', 'e', 'o', 'y', 'n']) := by
  have hhp : headPattern nt = some p := by
    simp [headPattern, hlk]
  rw [hhp]
  simp [headVowelYNTest, hcc]

/-- C4: in the verifier's re-simulation of a romaji keystroke, the current
token is completed (the token index advances) exactly when the new buffer
equals one of the token's accepted patterns and the ambiguous-nasal exception
does not apply — the exception being: current token ん, new buffer exactly
"n", and a next token whose first accepted romanization begins with a vowel,
y, or n.  The hypothesis restricts the next token, when present, to one with a
known non-empty romanization list whose first pattern is non-empty, which
holds for every token of a pool word (pool words fully tokenize against the
table). -/
theorem processKey_complete_iff (tokens : List String) (st : SimState)
    (key : String)
    (hkey : isFlickInput key = false)
    (hnext : ∀ nt, tokens[st.tokenIndex + 1]? = some nt →
      nt ≠ "" ∧ ∃ p ps, lookupKana nt = some (p :: ps) ∧ p ≠ "") :
    (processKey tokens st key).tokenIndex = st.tokenIndex + 1 ↔
      ((getValidPatterns (tokens.getD st.tokenIndex "")
          tokens[st.tokenIndex + 1]?).contains (st.inputBuffer ++ key) = true ∧
        ¬(tokens.getD st.tokenIndex "" = "ん" ∧ st.inputBuffer ++ key = "n" ∧
          ∃ nt p ps, tokens[st.tokenIndex + 1]? = some nt ∧
            lookupKana nt = some (p :: ps) ∧
            p.data.headD ' ' ∈ ['a', 'i', 'u', 'e', 'o', 'y', 'n'])) := by
  cases hcase : tokens[st.tokenIndex + 1]? with
  | none =>
    simp only [processKey, hkey, Bool.false_eq_true, if_false, hcase]
    split_ifs with h1 h2
    · simp only [Bool.and_eq_true, Bool.not_eq_eq_eq_not, Bool.not_true] at h2
      simp only [SimState.mk.injEq]
      constructor
      · intro _
        refine ⟨h2.1, ?_⟩
        rintro ⟨-, -, nt, p, ps, hne, -⟩
        exact hne
      · intro _
        trivial
    · constructor
      · intro hx
        exact absurd hx (Nat.ne_of_lt (Nat.lt_succ_self _))
      · rintro ⟨hc, hamb⟩
        exfalso
        apply h2
        rw [hc]
        simp
    · constructor
      · intro hx
        exact absurd hx (Nat.ne_of_lt (Nat.lt_succ_self _))
      · rintro ⟨hc, -⟩
        exact absurd (contains_imp_any_startsWith _ _ hc) h1
  | some nt =>
    obtain ⟨hne, p, ps, hlk, hpne⟩ := hnext nt hcase
    obtain ⟨c, cs, hcc⟩ : ∃ c cs, p.data = c :: cs := by
      cases hd : p.data with
      | nil => exact absurd (String.ext hd) hpne
      | cons c cs => exact ⟨c, cs, rfl⟩
    have htest := headVowelYNTest_of_cons nt p ps hlk c cs hcc
    have hheadD : p.data.headD ' ' = c := by rw [hcc]; rfl
    have hbridge : ∀ b : Bool,
        ((decide (tokens.getD st.tokenIndex "" = "ん") && decide (st.inputBuffer ++ key = "n") &&
          (decide (nt ≠ "") && headVowelYNTest (headPattern nt))) = b) →
        (b = true ↔
          (tokens.getD st.tokenIndex "" = "ん" ∧ st.inputBuffer ++ key = "n" ∧
            ∃ nt2 p2 ps2, (some nt : Option String) = some nt2 ∧
              lookupKana nt2 = some (p2 :: ps2) ∧
              p2.data.headD ' ' ∈ ['a', 'i', 'u', 'e', 'o', 'y', 'n'])) := by
      intro b hb
      subst hb
      rw [htest]
      simp only [Bool.and_eq_true, decide_eq_true_eq]
      constructor
      · rintro ⟨⟨h1, h2⟩, -, h4⟩
        exact ⟨h1, h2, nt, p, ps, rfl, hlk, hheadD ▸ h4⟩
      · rintro ⟨h1, h2, nt2, p2, ps2, hsome, hlk2, hmem⟩
        obtain rfl : nt2 = nt := (Option.some.inj hsome).symm
        rw [hlk] at hlk2
        obtain rfl : p2 = p := by
          have := (Option.some.inj hlk2)
          exact (List.cons.inj this.symm).1
        exact ⟨⟨h1, h2⟩, hne, hheadD ▸ hmem⟩
    simp only [processKey, hkey, Bool.false_eq_true, if_false, hcase]
    split_ifs with h1 h2
    · simp only [Bool.and_eq_true, Bool.not_eq_eq_eq_not, Bool.not_true] at h2
      constructor
      · intro _
        exact ⟨h2.1, fun habs => by
          have := (hbridge _ rfl).mpr habs
          rw [h2.2] at this
          exact Bool.false_ne_true this⟩
      · intro _
        rfl
    · constructor
      · intro hx
        exact absurd hx (Nat.ne_of_lt (Nat.lt_succ_self _))
      · rintro ⟨hc, hamb⟩
        exfalso
        rcases hB : (decide (tokens.getD st.tokenIndex "" = "ん") &&
            decide (st.inputBuffer ++ key = "n") &&
            (decide (nt ≠ "") && headVowelYNTest (headPattern nt))) with _ | _
        · exact h2 (by rw [hc, hB]; rfl)
        · exact hamb ((hbridge _ hB).mp rfl)
    · constructor
      · intro hx
        exact absurd hx (Nat.ne_of_lt (Nat.lt_succ_self _))
      · rintro ⟨hc, -⟩
        exact absurd (contains_imp_any_startsWith _ _ hc) h1

/-- Witness for C4 at the ambiguous-nasal input itself: word んな, empty
buffer, key n — the buffer "n" equals a pattern of ん, yet the token is not
completed because な's first romanization begins with n. -/
theorem processKey_complete_iff_witness :
    isFlickInput "n" = false ∧
    ((processKey ["ん", "な"] ⟨0, "", 0, 0, false⟩ "n").tokenIndex = 0 + 1 ↔
      ((getValidPatterns ((["ん", "な"] : List String).getD 0 "")
          (["ん", "な"] : List String)[0 + 1]?).contains ("" ++ "n") = true ∧
        ¬((["ん", "な"] : List String).getD 0 "" = "ん" ∧
          ("" : String) ++ "n" = "n" ∧
          ∃ nt p ps, (["ん", "な"] : List String)[0 + 1]? = some nt ∧
            lookupKana nt = some (p :: ps) ∧
            p.data.headD ' ' ∈ ['a', 'i', 'u', 'e', 'o', 'y', 'n']))) :=
  ⟨by decide,
   processKey_complete_iff ["ん", "な"] ⟨0, "", 0, 0, false⟩ "n" (by decide)
     (fun nt h => by
       rw [show ((["ん", "な"] : List String)[0 + 1]? : Option String) =
             some "な" from rfl] at h
       cases h
       exact ⟨by decide, "na", [], by decide, by decide⟩)⟩

/-- C10: when the submitted userId is absent, empty, or does not start with
"usr_", the accepted-submission tail leaves the scores table unchanged and
returns success with `isNewRecord = false`; the best-score record is read or
written only behind the "usr_" gate. -/
theorem finalizeScore_frame (userId username : Option String)
    (serverScore kpmRounded : ℤ) (db : List (String × ScoreRow))
    (h : ∀ uid, userId = some uid → strStartsWith uid "usr_" = false) :
    finalizeScore userId username serverScore kpmRounded db =
      (db, ⟨true, serverScore, kpmRounded, false⟩) := by
  unfold finalizeScore
  cases userId with
  | none => rfl
  | some uid =>
    have hu := h uid rfl
    simp [hu]

/-- Witness for C10 with a differently-prefixed user id. -/
theorem finalizeScore_frame_witness :
    finalizeScore (some "anonymous42") none 100 200 [] =
      ([], ⟨true, 100, 200, false⟩) :=
  finalizeScore_frame (some "anonymous42") none 100 200 []
    (fun uid h => by cases h; decide)

end TypingGame
